import Mathlib

/-!
Shallow embedding of SimpleWorkTime (src/main.py): the structured log
parser (parse_org_log, including the strptime timestamp parsing it calls),
the event-creation guard (create_calendar_event), the log-to-events path
(create_events_from_log) and the interactive session-tracker loop of main.
Python strings are modelled as lists of characters, Python datetime values
at minute precision as a record of calendar fields, and datetime values
inside the tracker as integer microsecond counts (only differences of
datetimes are ever used there).
-/

/-- Python strings, modelled as lists of characters. -/
abbrev PyStr := List Char

/-- ASCII whitespace, as matched by the regex whitespace class and stripped
by Python str.strip.  (Python also accepts some non-ASCII whitespace; the
log format in question is ASCII.) -/
def isPyWs (c : Char) : Bool :=
  c == ' ' || c == '\t' || c == '\n' || c == '\r' || c == '\x0b' || c == '\x0c'

/-- ASCII decimal digit test (regex digit class). -/
def isDigit (c : Char) : Bool :=
  48 ≤ c.toNat && c.toNat ≤ 57

/-- Character range test on code points, used to transcribe regex character
classes such as 1-9 or 0-5. -/
def between (lo hi : Nat) (c : Char) : Bool :=
  lo ≤ c.toNat && c.toNat ≤ hi

/-- Numeric value of a decimal digit character. -/
def digitVal (c : Char) : Nat := c.toNat - 48

/-- Decimal digit character for a value 0..9 (values above 9 do not occur
at use sites, which always pass a remainder mod 10 or a bounded quotient). -/
def digitCh (n : Nat) : Char :=
  match n with
  | 0 => '0' | 1 => '1' | 2 => '2' | 3 => '3' | 4 => '4'
  | 5 => '5' | 6 => '6' | 7 => '7' | 8 => '8' | _ => '9'

/-- ASCII lower-casing of one character, as done by str.lower and by the
case-insensitive regex match inside strptime. -/
def toLowerCh (c : Char) : Char :=
  if 65 ≤ c.toNat && c.toNat ≤ 90 then Char.ofNat (c.toNat + 32) else c

/-- Python str.strip with no arguments: drop leading and trailing
whitespace. -/
def pstrip (s : PyStr) : PyStr :=
  ((s.dropWhile isPyWs).reverse.dropWhile isPyWs).reverse

/-- Python timedelta.seconds for a difference of deltaUs microseconds: the
timedelta is normalized to days, seconds in 0..86399 and microseconds in
0..999999, so the seconds field is the floor quotient by one million taken
modulo 86400.  This is the sub-day seconds component, not the total length
of the timedelta. -/
def tdSeconds (deltaUs : Int) : Int :=
  Int.emod (Int.ediv deltaUs 1000000) 86400

/-- An event body handed to the calendar service (the Event Sink) by
create_calendar_event: summary, start and end instants, color tag. -/
structure CalEvent where
  summary : PyStr
  startUs : Int
  endUs : Int
  colorId : Option PyStr
  deriving DecidableEq, Repr

/-- create_calendar_event (src/main.py lines 43-63).  Answers none when the
guard (end_time - start_time).seconds < 10 fires, in which case nothing is
sent to the Event Sink; otherwise the constructed event is forwarded (the
sink call itself is external I/O, so the forwarded event is the returned
value). -/
def create_calendar_event (start_time end_time : Int) (summary : PyStr)
    (color_id : Option PyStr) : Option CalEvent :=
  if tdSeconds (end_time - start_time) < 10 then none
  else some ⟨summary, start_time, end_time, color_id⟩

/-- One attempt of the task-name pattern (one-or-more asterisks, then
one-or-more whitespace, then a greedy capture of non-newline characters) at
a given position of the text, src/main.py line 182.  The asterisk run and
the whitespace run are maximal (the regex quantifiers are greedy and no
backtracking can help, since the capture group also matches the empty
string); the whitespace run may cross line breaks, because the regex
whitespace class matches the newline character. -/
def matchTaskNameAt (s : PyStr) : Option PyStr :=
  let stars := s.takeWhile (fun c => c == '*')
  if stars.isEmpty then none
  else
    let s1 := s.drop stars.length
    let ws := s1.takeWhile isPyWs
    if ws.isEmpty then none
    else some ((s1.drop ws.length).takeWhile (fun c => c != '\n'))

/-- Scan the line-start positions of the text from left to right, as
re.search does for a MULTILINE pattern anchored with a caret, returning the
capture of the first position where matchTaskNameAt succeeds.  The fuel
argument only bounds the recursion: any fuel at least the length of the
string gives the same answer (lemma findTaskNameAux_fuel below). -/
def findTaskNameAux : Nat → PyStr → Option PyStr
  | 0, s => matchTaskNameAt s
  | Nat.succ f, s =>
    if (matchTaskNameAt s).isSome then matchTaskNameAt s
    else
      let t := s.dropWhile (fun c => c != '\n')
      if t.isEmpty then none else findTaskNameAux f t.tail

/-- The capture of re.search of the task-name pattern over the whole text
(src/main.py line 182), or none when the pattern matches nowhere. -/
def findTaskName (s : PyStr) : Option PyStr :=
  findTaskNameAux s.length s

/-- The literal prefix of the clock-line pattern of src/main.py line 188. -/
def clockLit : PyStr := ['C', 'L', 'O', 'C', 'K', ':', ' ', '[']

/-- Delimiter between the two bracketed timestamps of a clock line. -/
def dashDelim : PyStr := [']', '-', '-', '[']

/-- Closing bracket of the second captured timestamp of a clock line. -/
def closeDelim : PyStr := [']']

/-- Lazy capture up to a literal delimiter: the shortest run of non-newline
characters followed by the delimiter, answering the captured run and the
text after the delimiter.  This transcribes a lazy dot-star group followed
by a literal in a regex whose dot does not match newline. -/
def lazyCapture (delim : PyStr) (s : PyStr) : Option (PyStr × PyStr) :=
  if delim.isPrefixOf s then some ([], s.drop delim.length)
  else
    match s with
    | [] => none
    | c :: rest =>
      if c == '\n' then none
      else
        match lazyCapture delim rest with
        | none => none
        | some (cap, r) => some (c :: cap, r)

/-- One attempt of the clock pattern of src/main.py line 188 at a given
position: the literal, a lazy capture up to the bracket-dash-dash-bracket
delimiter, and a lazy capture up to the closing bracket.  Answers the two
captures and the remainder of the text after the match. -/
def matchClockAt (s : PyStr) : Option ((PyStr × PyStr) × PyStr) :=
  if clockLit.isPrefixOf s then
    match lazyCapture dashDelim (s.drop clockLit.length) with
    | none => none
    | some (g1, s2) =>
      match lazyCapture closeDelim s2 with
      | none => none
      | some (g2, s3) => some ((g1, g2), s3)
  else none

/-- Scan for all non-overlapping matches of the clock pattern from left to
right, continuing after the end of each match, as re.findall does.  The
fuel argument only bounds the recursion: any fuel at least the length of
the string gives the same answer (lemma clockFindallAux_fuel below). -/
def clockFindallAux : Nat → PyStr → List (PyStr × PyStr)
  | 0, _ => []
  | Nat.succ f, s =>
    if s.isEmpty then []
    else
      (matchClockAt s).elim (clockFindallAux f s.tail) fun p =>
        p.1 :: clockFindallAux f p.2

/-- re.findall of the clock pattern over the whole text, src/main.py
line 189: the list of captured timestamp pairs in order of appearance. -/
def clockFindall (s : PyStr) : List (PyStr × PyStr) :=
  clockFindallAux s.length s

/-- A Python naive datetime at minute precision, as produced by strptime
with the clock-line format (hour and minute fields only; seconds and
microseconds are zero there). -/
structure PyDateTime where
  year : Nat
  month : Nat
  day : Nat
  hour : Nat
  minute : Nat
  deriving DecidableEq, Repr

/-- Four mandatory digits, the strptime regex for the year directive. -/
def parse4Digits (s : PyStr) : Option (Nat × PyStr) :=
  match s with
  | c1 :: c2 :: c3 :: c4 :: rest =>
    if isDigit c1 && isDigit c2 && isDigit c3 && isDigit c4 then
      some (digitVal c1 * 1000 + digitVal c2 * 100 + digitVal c3 * 10 + digitVal c4, rest)
    else none
  | _ => none

/-- The strptime month regex: a one followed by 0-2, or a zero followed by
1-9, or a single digit 1-9 (ordered alternation; one or two digits). -/
def parseMonth (s : PyStr) : Option (Nat × PyStr) :=
  match s with
  | c1 :: c2 :: rest =>
    if c1 == '1' && between 48 50 c2 then some (10 + digitVal c2, rest)
    else if c1 == '0' && between 49 57 c2 then some (digitVal c2, rest)
    else if between 49 57 c1 then some (digitVal c1, c2 :: rest)
    else none
  | [c1] => if between 49 57 c1 then some (digitVal c1, []) else none
  | [] => none

/-- The strptime day regex: three followed by 0-1, or 1-2 followed by a
digit, or zero followed by 1-9, or a single digit 1-9. -/
def parseDay (s : PyStr) : Option (Nat × PyStr) :=
  match s with
  | c1 :: c2 :: rest =>
    if c1 == '3' && (c2 == '0' || c2 == '1') then some (30 + digitVal c2, rest)
    else if (c1 == '1' || c1 == '2') && isDigit c2 then
      some (digitVal c1 * 10 + digitVal c2, rest)
    else if c1 == '0' && between 49 57 c2 then some (digitVal c2, rest)
    else if between 49 57 c1 then some (digitVal c1, c2 :: rest)
    else none
  | [c1] => if between 49 57 c1 then some (digitVal c1, []) else none
  | [] => none

/-- The strptime hour regex: two followed by 0-3, or 0-1 followed by a
digit, or a single digit. -/
def parseHour (s : PyStr) : Option (Nat × PyStr) :=
  match s with
  | c1 :: c2 :: rest =>
    if c1 == '2' && between 48 51 c2 then some (20 + digitVal c2, rest)
    else if (c1 == '0' || c1 == '1') && isDigit c2 then
      some (digitVal c1 * 10 + digitVal c2, rest)
    else if isDigit c1 then some (digitVal c1, c2 :: rest)
    else none
  | [c1] => if isDigit c1 then some (digitVal c1, []) else none
  | [] => none

/-- The strptime minute regex: 0-5 followed by a digit, or a single
digit. -/
def parseMinute (s : PyStr) : Option (Nat × PyStr) :=
  match s with
  | c1 :: c2 :: rest =>
    if between 48 53 c1 && isDigit c2 then some (digitVal c1 * 10 + digitVal c2, rest)
    else if isDigit c1 then some (digitVal c1, c2 :: rest)
    else none
  | [c1] => if isDigit c1 then some (digitVal c1, []) else none
  | [] => none

/-- A literal whitespace character in the strptime format is compiled to a
regex one-or-more whitespace run; consume a maximal nonempty run. -/
def parseWsRun (s : PyStr) : Option PyStr :=
  let w := s.takeWhile isPyWs
  if w.isEmpty then none else some (s.drop w.length)

/-- Consume one expected literal character. -/
def expectCh (c : Char) (s : PyStr) : Option PyStr :=
  match s with
  | d :: rest => if d == c then some rest else none
  | [] => none

/-- The lower-cased three-letter weekday abbreviations of the C locale,
against which strptime matches the weekday directive case-insensitively. -/
def wdNamesLower : List PyStr :=
  [['m', 'o', 'n'], ['t', 'u', 'e'], ['w', 'e', 'd'], ['t', 'h', 'u'],
   ['f', 'r', 'i'], ['s', 'a', 't'], ['s', 'u', 'n']]

/-- The strptime weekday directive: three characters whose lower-casing is
one of the seven abbreviated weekday names.  The parsed weekday is not used
to build the datetime and is not checked against the date. -/
def parseWeekday (s : PyStr) : Option PyStr :=
  match s with
  | c1 :: c2 :: c3 :: rest =>
    if [toLowerCh c1, toLowerCh c2, toLowerCh c3] ∈ wdNamesLower then some rest
    else none
  | _ => none

/-- Gregorian leap-year rule, as used by Python datetime. -/
def isLeap (y : Nat) : Bool :=
  y % 4 == 0 && (y % 100 != 0 || y % 400 == 0)

/-- Number of days of a month, as validated by the datetime constructor. -/
def daysInMonth (y m : Nat) : Nat :=
  if m == 2 then (if isLeap y then 29 else 28)
  else if m == 4 || m == 6 || m == 9 || m == 11 then 30
  else 31

/-- datetime.strptime with the clock-line format of src/main.py lines
194-195: year of four digits, dash, lax one-or-two-digit month, dash, lax
day, whitespace run, case-insensitive weekday abbreviation, whitespace run,
lax hour, colon, lax minute; the whole string must be consumed, and the
datetime constructor then requires year at least one and a day that exists
in the given month.  Any failure raises ValueError in Python, here none. -/
def strptimeTs (s : PyStr) : Option PyDateTime :=
  match parse4Digits s with
  | none => none
  | some (y, s1) =>
    match expectCh '-' s1 with
    | none => none
    | some s2 =>
      match parseMonth s2 with
      | none => none
      | some (m, s3) =>
        match expectCh '-' s3 with
        | none => none
        | some s4 =>
          match parseDay s4 with
          | none => none
          | some (d, s5) =>
            match parseWsRun s5 with
            | none => none
            | some s6 =>
              match parseWeekday s6 with
              | none => none
              | some s7 =>
                match parseWsRun s7 with
                | none => none
                | some s8 =>
                  match parseHour s8 with
                  | none => none
                  | some (h, s9) =>
                    match expectCh ':' s9 with
                    | none => none
                    | some s10 =>
                      match parseMinute s10 with
                      | none => none
                      | some (mi, s11) =>
                        if s11.isEmpty then
                          if 1 ≤ y ∧ d ≤ daysInMonth y m then some ⟨y, m, d, h, mi⟩
                          else none
                        else none

/-- The error taxonomy of the spec: parse_org_log raises ValueError for a
missing task name, and strptime raises ValueError for a bad timestamp. -/
inductive PyParseError where
  | MissingTaskName
  | BadTimestamp
  deriving DecidableEq, Repr

/-- One parsed clock interval (the Python dict with keys start and end;
the end key is spelled stop here because end is reserved in Lean). -/
structure ClockInterval where
  start : PyDateTime
  stop : PyDateTime
  deriving DecidableEq, Repr

/-- The dictionary returned by parse_org_log. -/
structure ParsedLog where
  task_name : PyStr
  clock_events : List ClockInterval
  deriving DecidableEq, Repr

/-- One iteration of the timestamp-parsing loop of src/main.py lines
193-196: strptime on the start capture, then on the end capture; a failure
raises ValueError, here BadTimestamp. -/
def parseClockPair (p : PyStr × PyStr) : Except PyParseError ClockInterval :=
  match strptimeTs p.1, strptimeTs p.2 with
  | some sd, some ed => .ok ⟨sd, ed⟩
  | _, _ => .error .BadTimestamp

/-- The timestamp-parsing loop of src/main.py lines 192-196: each captured
pair is fed to strptime in order, and the first failure aborts the whole
parse. -/
def parseClockPairs : List (PyStr × PyStr) → Except PyParseError (List ClockInterval)
  | [] => .ok []
  | p :: rest => do
    let ev ← parseClockPair p
    let evs ← parseClockPairs rest
    .ok (ev :: evs)

/-- parse_org_log, src/main.py lines 166-198. -/
def parse_org_log (log_entry : PyStr) : Except PyParseError ParsedLog :=
  match findTaskName log_entry with
  | none => .error .MissingTaskName
  | some g =>
    match parseClockPairs (clockFindall log_entry) with
    | .ok evs => .ok ⟨pstrip g, evs⟩
    | .error e => .error e

/-- Day count of a proleptic Gregorian date, counted from the first of
March of year zero (the era algorithm used by calendar libraries).  Only
differences of the values are used, so the choice of epoch cancels and the
values agree with differences of Python date.toordinal. -/
def daysFromCivil (y m d : Nat) : Nat :=
  let y1 := if m ≤ 2 then y - 1 else y
  let era := y1 / 400
  let yoe := y1 % 400
  let mp := if m > 2 then m - 3 else m + 9
  let doy := (153 * mp + 2) / 5 + (d - 1)
  let doe := yoe * 365 + yoe / 4 - yoe / 100 + doy
  era * 146097 + doe

/-- Python date.weekday: zero for Monday through six for Sunday.  Day zero
of daysFromCivil (the first of March of year zero) was a Wednesday, hence
the offset of two. -/
def pyWeekdayIdx (y m d : Nat) : Nat :=
  (daysFromCivil y m d + 2) % 7

/-- Title-case weekday abbreviation for a weekday index (Monday first), as
produced by strftime. -/
def weekdayByIdx (k : Nat) : PyStr :=
  match k with
  | 0 => ['M', 'o', 'n'] | 1 => ['T', 'u', 'e'] | 2 => ['W', 'e', 'd']
  | 3 => ['T', 'h', 'u'] | 4 => ['F', 'r', 'i'] | 5 => ['S', 'a', 't']
  | _ => ['S', 'u', 'n']

/-- Two decimal digits, zero-padded, for a value below one hundred. -/
def pad2ch (n : Nat) : PyStr :=
  [digitCh (n / 10), digitCh (n % 10)]

/-- Four decimal digits, zero-padded, for a value below ten thousand. -/
def pad4ch (n : Nat) : PyStr :=
  [digitCh (n / 1000 % 10), digitCh (n / 100 % 10), digitCh (n / 10 % 10), digitCh (n % 10)]

/-- Modelled from the spec: the literal clock-line timestamp format
(four-digit year, dash, two-digit month, dash, two-digit day, space,
three-letter weekday token, space, two-digit hour, colon, two-digit
minute), rendered for a given datetime with a caller-supplied weekday
token.  The formatter itself is not part of src/main.py (the source only
parses); this is the format named by the spec for the round-trip
property. -/
def renderTs (dt : PyDateTime) (wd : PyStr) : PyStr :=
  pad4ch dt.year ++ '-' :: pad2ch dt.month ++ '-' :: pad2ch dt.day ++
    ' ' :: (wd ++ ' ' :: pad2ch dt.hour ++ ':' :: pad2ch dt.minute)

/-- Modelled from the spec: formatting a datetime in the clock-line
timestamp format, with the weekday token derived from the date as strftime
does. -/
def formatTs (dt : PyDateTime) : PyStr :=
  renderTs dt (weekdayByIdx (pyWeekdayIdx dt.year dt.month dt.day))

/-- Valid datetime fields at minute precision: exactly the values
representable by a Python datetime with a four-digit year. -/
def validDT (dt : PyDateTime) : Prop :=
  1 ≤ dt.year ∧ dt.year ≤ 9999 ∧ 1 ≤ dt.month ∧ dt.month ≤ 12 ∧
    1 ≤ dt.day ∧ dt.day ≤ daysInMonth dt.year dt.month ∧
    dt.hour ≤ 23 ∧ dt.minute ≤ 59

instance (dt : PyDateTime) : Decidable (validDT dt) := by
  unfold validDT
  exact inferInstance

/-- Microsecond count of a naive datetime at minute precision, from the
epoch of daysFromCivil.  Differences of these values agree with Python
datetime subtraction. -/
def dtToUs (dt : PyDateTime) : Int :=
  ((daysFromCivil dt.year dt.month dt.day : Int) * 86400 +
    (dt.hour : Int) * 3600 + (dt.minute : Int) * 60) * 1000000

/-- create_events_from_log, src/main.py lines 201-223: parse the log entry
(errors propagate to the caller) and hand each interval to
create_calendar_event with the task name as summary; the answered list
holds the events actually forwarded to the Event Sink. -/
def create_events_from_log (log_entry : PyStr) : Except PyParseError (List CalEvent) :=
  match parse_org_log log_entry with
  | .error e => .error e
  | .ok r =>
    .ok (r.clock_events.filterMap fun ev =>
      create_calendar_event (dtToUs ev.start) (dtToUs ev.stop) r.task_name (some ['7']))

/-- The mutable state of the interactive tracker loop of main,
src/main.py lines 325-372: accumulated working time (Python keeps float
seconds; microseconds are exact here), the working flag, and the start
instant of the open segment. -/
structure TrackerState where
  total_time : Int
  working : Bool
  start_time : Option Int
  deriving DecidableEq, Repr

/-- The state at entry of the loop. -/
def initTrackerState : TrackerState := ⟨0, false, none⟩

/-- The exit command checked by the loop (after lower-casing the input). -/
def exitWord : PyStr := ['e', 'x', 'i', 't']

/-- Closing a work segment, src/main.py lines 333-342 and parallel places:
read the clock, add the elapsed time to the accumulator, and forward the
segment to create_calendar_event.  The none branch of start_time cannot be
reached from the initial state, because the working flag is set only
together with a start instant (Python would raise there). -/
def closeSegment (clock : Nat → Int) (event_name : PyStr) (k : Nat)
    (st : TrackerState) : List CalEvent × TrackerState :=
  match st.start_time with
  | some s =>
    let e := clock k
    ((create_calendar_event s e event_name (some ['7'])).toList,
      ⟨st.total_time + (e - s), false, st.start_time⟩)
  | none => ([], st)

/-- The interactive loop of main, src/main.py lines 329-365, driven by the
list of input lines (an empty list means end of input, the EOFError or
KeyboardInterrupt path) and by a clock oracle consulted once per call of
datetime.now, indexed by the running count k of such calls.  Answers the
events forwarded to the Event Sink, in order, and the final state. -/
def trackerRun (clock : Nat → Int) (event_name : PyStr) :
    List PyStr → Nat → TrackerState → List CalEvent × TrackerState
  | [], k, st =>
    if st.working then closeSegment clock event_name k st else ([], st)
  | inp :: rest, k, st =>
    if inp.map toLowerCh == exitWord then
      (if st.working then closeSegment clock event_name k st else ([], st))
    else if st.working then
      let p := closeSegment clock event_name k st
      let q := trackerRun clock event_name rest (k + 1) p.2
      (p.1 ++ q.1, q.2)
    else
      trackerRun clock event_name rest (k + 1) ⟨st.total_time, true, some (clock k)⟩

/-- Decimal digits of a number, zero-padded to width two, as the Python
format specifier 02 does (wider numbers are not truncated). -/
def pad2dec (n : Nat) : PyStr :=
  if n < 10 then '0' :: Nat.toDigits 10 n else Nat.toDigits 10 n

/-- The total-time report of main, src/main.py lines 367-372: split the
accumulated seconds with divmod and print three zero-padded fields. -/
def formatTotal (totalUs : Int) : PyStr :=
  let t := (Int.ediv totalUs 1000000).toNat
  pad2dec (t / 3600) ++ ':' :: pad2dec (t % 3600 / 60) ++ ':' :: pad2dec (t % 60)

/-- Modelled from the spec: the per-line reading of the task-name pattern,
one or more leading marker characters, then whitespace, applied to a single
line of the text (a line contains no newline). -/
def spec_taskLine (l : PyStr) : Bool :=
  let stars := l.takeWhile (fun c => c == '*')
  !stars.isEmpty && !((l.drop stars.length).takeWhile isPyWs).isEmpty

/-- The lines of a text, split at newline characters. -/
def linesOf (s : PyStr) : List PyStr :=
  s.splitOn '\n'

/-- The title-case three-letter weekday abbreviations, as strftime prints
them. -/
def wdNamesTitle : List PyStr :=
  [['M', 'o', 'n'], ['T', 'u', 'e'], ['W', 'e', 'd'], ['T', 'h', 'u'],
   ['F', 'r', 'i'], ['S', 'a', 't'], ['S', 'u', 'n']]

/-- Modelled from the spec: a timestamp in the exact literal format
four-digit year, dash, two-digit month in 01-12, dash, two-digit day in
01-31, space, one of the seven three-letter weekday abbreviations, space,
two-digit hour in 00-23, colon, two-digit minute in 00-59. -/
def spec_exactTs (s : PyStr) : Bool :=
  match s with
  | [y1, y2, y3, y4, da1, mo1, mo2, da2, d1, d2, sp1, w1, w2, w3, sp2,
      h1, h2, co, mi1, mi2] =>
    isDigit y1 && isDigit y2 && isDigit y3 && isDigit y4 &&
    da1 == '-' && da2 == '-' && sp1 == ' ' && sp2 == ' ' && co == ':' &&
    isDigit mo1 && isDigit mo2 &&
    decide (1 ≤ digitVal mo1 * 10 + digitVal mo2 ∧ digitVal mo1 * 10 + digitVal mo2 ≤ 12) &&
    isDigit d1 && isDigit d2 &&
    decide (1 ≤ digitVal d1 * 10 + digitVal d2 ∧ digitVal d1 * 10 + digitVal d2 ≤ 31) &&
    wdNamesTitle.contains [w1, w2, w3] &&
    isDigit h1 && isDigit h2 && decide (digitVal h1 * 10 + digitVal h2 ≤ 23) &&
    isDigit mi1 && isDigit mi2 && decide (digitVal mi1 * 10 + digitVal mi2 ≤ 59)
  | _ => false

/-- The suffixes of a text that begin at its line starts (the whole text,
then the text after each newline), in order; the positions at which a
MULTILINE caret-anchored pattern may match.  The fuel argument bounds the
recursion exactly as in findTaskNameAux. -/
def lineStartSuffixesAux : Nat → PyStr → List PyStr
  | 0, s => [s]
  | Nat.succ f, s =>
    let t := s.dropWhile (fun c => c != '\n')
    if t.isEmpty then [s] else s :: lineStartSuffixesAux f t.tail

/-- The line-start suffixes of a text. -/
def lineStartSuffixes (s : PyStr) : List PyStr :=
  lineStartSuffixesAux s.length s

/-! ### Lemmas about the scanning functions -/

theorem append_drop_of_isPrefixOf {d s : PyStr} (hp : d.isPrefixOf s) :
    d ++ s.drop d.length = s := by
  obtain ⟨t, ht⟩ := ( List.isPrefixOf_iff_prefix).mp hp
  subst ht
  rw [List.drop_left]

theorem lazyCapture_decomp {d : PyStr} :
    ∀ {s cap r : PyStr}, lazyCapture d s = some (cap, r) → cap ++ d ++ r = s := by
  intro s
  induction s with
  | nil =>
    intro cap r h
    rw [lazyCapture] at h
    split at h
    · rename_i hp
      simp only [Option.some.injEq, Prod.mk.injEq] at h
      obtain ⟨hc, hr⟩ := h
      subst hc
      subst hr
      simpa using append_drop_of_isPrefixOf hp
    · simp at h
  | cons c rest ih =>
    intro cap r h
    rw [lazyCapture] at h
    split at h
    · rename_i hp
      simp only [Option.some.injEq, Prod.mk.injEq] at h
      obtain ⟨hc, hr⟩ := h
      subst hc
      subst hr
      simpa using append_drop_of_isPrefixOf hp
    · by_cases hc : c == '\n'
      · simp [hc] at h
      · simp only [hc, if_false, Bool.false_eq_true] at h
        cases hrec : lazyCapture d rest with
        | none => rw [hrec] at h; simp at h
        | some p =>
          obtain ⟨cap1, r1⟩ := p
          rw [hrec] at h
          simp only [Option.some.injEq, Prod.mk.injEq] at h
          obtain ⟨hc1, hr1⟩ := h
          subst hc1
          subst hr1
          have := ih hrec
          simp only [List.cons_append]
          rw [this]

theorem lazyCapture_length {d s cap r : PyStr} (h : lazyCapture d s = some (cap, r)) :
    d.length + r.length ≤ s.length := by
  have hd := lazyCapture_decomp h
  have h2 : (cap ++ d ++ r).length = s.length := by rw [hd]
  simp only [List.length_append] at h2
  omega

theorem matchClockAt_shrink {s : PyStr} {gs : PyStr × PyStr} {r : PyStr}
    (h : matchClockAt s = some (gs, r)) : r.length < s.length := by
  rw [matchClockAt] at h
  split at h
  · rename_i hp
    split at h
    · simp at h
    · rename_i g1 s2 h1
      split at h
      · simp at h
      · rename_i g2 s3 h2
        simp only [Option.some.injEq, Prod.mk.injEq] at h
        obtain ⟨-, hr⟩ := h
        subst hr
        have l1 := lazyCapture_length h1
        have l2 := lazyCapture_length h2
        have l3 : clockLit.length ≤ s.length :=
          (( List.isPrefixOf_iff_prefix).mp hp).length_le
        have l4 : (s.drop clockLit.length).length = s.length - clockLit.length :=
          List.length_drop _ _
        have l5 : clockLit.length = 8 := rfl
        have l6 : dashDelim.length = 4 := rfl
        have l7 : closeDelim.length = 1 := rfl
        omega
  · simp at h

theorem clockFindallAux_fuel :
    ∀ (f1 f2 : Nat) (s : PyStr), s.length ≤ f1 → s.length ≤ f2 →
      clockFindallAux f1 s = clockFindallAux f2 s := by
  intro f1
  induction f1 with
  | zero =>
    intro f2 s h1 h2
    have hs : s = [] := List.length_eq_zero.mp (Nat.le_zero.mp h1)
    subst hs
    cases f2 <;> rfl
  | succ f ih =>
    intro f2 s h1 h2
    cases s with
    | nil => cases f2 <;> rfl
    | cons c rest =>
      have hlen : (c :: rest).length = rest.length + 1 := rfl
      cases f2 with
      | zero => omega
      | succ f2p =>
        rw [clockFindallAux, clockFindallAux]
        cases hm : matchClockAt (c :: rest) with
        | some p =>
          obtain ⟨gs, r⟩ := p
          have hr := matchClockAt_shrink hm
          simp only [hm, Option.elim, List.isEmpty_cons, Bool.false_eq_true, if_false]
          rw [ih f2p r (by omega) (by omega)]
        | none =>
          simp only [hm, Option.elim, List.isEmpty_cons, Bool.false_eq_true, if_false,
            List.tail_cons]
          exact ih f2p rest (by omega) (by omega)

theorem clockFindallAux_eq {f : Nat} {s : PyStr} (h : s.length ≤ f) :
    clockFindallAux f s = clockFindall s :=
  clockFindallAux_fuel f s.length s h (Nat.le_refl _)

theorem dropWhile_length_le {p : Char → Bool} (s : PyStr) :
    (s.dropWhile p).length ≤ s.length :=
  (List.dropWhile_sublist p).length_le

theorem findTaskNameAux_fuel :
    ∀ (f1 f2 : Nat) (s : PyStr), s.length ≤ f1 → s.length ≤ f2 →
      findTaskNameAux f1 s = findTaskNameAux f2 s := by
  intro f1
  induction f1 with
  | zero =>
    intro f2 s h1 h2
    have hs : s = [] := List.length_eq_zero.mp (Nat.le_zero.mp h1)
    subst hs
    cases f2 <;> rfl
  | succ f ih =>
    intro f2 s h1 h2
    cases s with
    | nil => cases f2 <;> rfl
    | cons c rest =>
      have hlen : (c :: rest).length = rest.length + 1 := rfl
      cases f2 with
      | zero => omega
      | succ f2p =>
        rw [findTaskNameAux, findTaskNameAux]
        cases hm : matchTaskNameAt (c :: rest) with
        | some g => simp only [hm, Option.isSome_some, if_true]
        | none =>
          simp only [hm, Option.isSome_none, Bool.false_eq_true, if_false]
          cases hd : (c :: rest).dropWhile (fun x => x != '\n') with
          | nil => simp only [hd, List.isEmpty_nil, if_true]
          | cons x rest2 =>
            have hdl : (x :: rest2).length ≤ (c :: rest).length := by
              rw [← hd]; exact dropWhile_length_le _
            have hl2 : (x :: rest2).length = rest2.length + 1 := rfl
            simp only [hd, List.isEmpty_cons, Bool.false_eq_true, if_false, List.tail_cons]
            exact ih f2p rest2 (by omega) (by omega)

theorem findTaskNameAux_eq {f : Nat} {s : PyStr} (h : s.length ≤ f) :
    findTaskNameAux f s = findTaskName s :=
  findTaskNameAux_fuel f s.length s h (Nat.le_refl _)

theorem findTaskName_of_matchAt {s g : PyStr} (h : matchTaskNameAt s = some g) :
    findTaskName s = some g := by
  rw [findTaskName]
  cases hl : s.length with
  | zero => rw [findTaskNameAux]; exact h
  | succ n => rw [findTaskNameAux]; simp [h]

theorem findTaskNameAux_none_iff :
    ∀ (f : Nat) (s : PyStr), (findTaskNameAux f s = none ↔
      ∀ t ∈ lineStartSuffixesAux f s, matchTaskNameAt t = none) := by
  intro f
  induction f with
  | zero =>
    intro s
    rw [findTaskNameAux, lineStartSuffixesAux]
    simp
  | succ f ih =>
    intro s
    rw [findTaskNameAux, lineStartSuffixesAux]
    cases hm : matchTaskNameAt s with
    | some g =>
      simp only [hm, Option.isSome_some, if_true]
      constructor
      · intro h; cases h
      · intro h
        exfalso
        by_cases ht : (s.dropWhile (fun c => c != '\n')).isEmpty
        · have hs := h s (by simp [ht])
          rw [hm] at hs; cases hs
        · have hs := h s (by simp [ht])
          rw [hm] at hs; cases hs
    | none =>
      simp only [hm, Option.isSome_none, Bool.false_eq_true, if_false]
      by_cases ht : (s.dropWhile (fun c => c != '\n')).isEmpty
      · simp only [ht, if_true]
        constructor
        · intro _ t htl
          have : t = s := by simpa using htl
          subst this
          exact hm
        · intro _; trivial
      · simp only [Bool.not_eq_true] at ht
        simp only [ht, Bool.false_eq_true, if_false]
        rw [ih]
        constructor
        · intro h t htl
          rcases List.mem_cons.mp htl with rfl | htl2
          · exact hm
          · exact h t htl2
        · intro h t htl
          exact h t (List.mem_cons_of_mem _ htl)

theorem findTaskName_none_iff (s : PyStr) :
    findTaskName s = none ↔ ∀ t ∈ lineStartSuffixes s, matchTaskNameAt t = none :=
  findTaskNameAux_none_iff s.length s

theorem findTaskNameAux_some :
    ∀ (f : Nat) (s g : PyStr), findTaskNameAux f s = some g →
      ∃ t, matchTaskNameAt t = some g := by
  intro f
  induction f with
  | zero =>
    intro s g h
    rw [findTaskNameAux] at h
    exact ⟨s, h⟩
  | succ f ih =>
    intro s g h
    rw [findTaskNameAux] at h
    cases hm : matchTaskNameAt s with
    | some g2 =>
      rw [hm] at h
      simp only [Option.isSome_some, if_true] at h
      exact ⟨s, hm.trans h⟩
    | none =>
      rw [hm] at h
      simp only [Option.isSome_none, Bool.false_eq_true, if_false] at h
      by_cases ht : (s.dropWhile (fun c => c != '\n')).isEmpty
      · rw [if_pos ht] at h; cases h
      · rw [if_neg ht] at h; exact ih _ g h

theorem matchTaskNameAt_no_newline {s g : PyStr} (h : matchTaskNameAt s = some g) :
    '\n' ∉ g := by
  simp only [matchTaskNameAt] at h
  split at h
  · cases h
  · split at h
    · cases h
    · simp only [Option.some.injEq] at h
      subst h
      intro hmem
      have := List.mem_takeWhile_imp hmem
      simp at this

theorem mem_pstrip {c : Char} {s : PyStr} (h : c ∈ pstrip s) : c ∈ s := by
  rw [pstrip, List.mem_reverse] at h
  have h2 := List.Sublist.mem h (List.dropWhile_sublist _)
  rw [List.mem_reverse] at h2
  exact List.Sublist.mem h2 (List.dropWhile_sublist _)

theorem parseClockPair_error_eq {p : PyStr × PyStr} {e : PyParseError}
    (h : parseClockPair p = .error e) : e = .BadTimestamp := by
  rw [parseClockPair] at h
  split at h
  · cases h
  · simp only [Except.error.injEq] at h
    exact h.symm

theorem parseClockPair_ok_strptime {p : PyStr × PyStr} {ev : ClockInterval}
    (h : parseClockPair p = .ok ev) :
    strptimeTs p.1 = some ev.start ∧ strptimeTs p.2 = some ev.stop := by
  rw [parseClockPair] at h
  split at h
  · rename_i sd ed ha hb
    simp only [Except.ok.injEq] at h
    subst h
    exact ⟨ha, hb⟩
  · cases h

theorem parseClockPair_error_strptime {p : PyStr × PyStr} {e : PyParseError}
    (h : parseClockPair p = .error e) :
    strptimeTs p.1 = none ∨ strptimeTs p.2 = none := by
  rw [parseClockPair] at h
  split at h
  · cases h
  · rename_i hno
    cases ha : strptimeTs p.1 with
    | none => exact Or.inl rfl
    | some sd =>
      cases hb : strptimeTs p.2 with
      | none => exact Or.inr rfl
      | some ed => exact (hno sd ed ha hb).elim

theorem parseClockPairs_error_bad :
    ∀ {ms : List (PyStr × PyStr)} {e : PyParseError},
      parseClockPairs ms = .error e → e = .BadTimestamp := by
  intro ms
  induction ms with
  | nil => intro e h; cases h
  | cons p rest ih =>
    intro e h
    rw [parseClockPairs] at h
    cases hp : parseClockPair p with
    | error e2 =>
      rw [hp] at h
      have h2 : (Except.error e2 : Except PyParseError (List ClockInterval)) = .error e := h
      simp only [Except.error.injEq] at h2
      subst h2
      exact parseClockPair_error_eq hp
    | ok ev =>
      rw [hp] at h
      cases hq : parseClockPairs rest with
      | error e3 =>
        rw [hq] at h
        have h2 : (Except.error e3 : Except PyParseError (List ClockInterval)) = .error e := h
        simp only [Except.error.injEq] at h2
        subst h2
        exact ih hq
      | ok evs2 =>
        rw [hq] at h
        have h2 : (Except.ok (ev :: evs2) : Except PyParseError (List ClockInterval)) = .error e := h
        cases h2

theorem parseClockPairs_ok_elem :
    ∀ {ms : List (PyStr × PyStr)} {evs : List ClockInterval},
      parseClockPairs ms = .ok evs →
      evs.length = ms.length ∧
      ∀ (i : Nat) (hi : i < ms.length) (hi2 : i < evs.length),
        strptimeTs (ms.get ⟨i, hi⟩).1 = some ((evs.get ⟨i, hi2⟩).start) ∧
        strptimeTs (ms.get ⟨i, hi⟩).2 = some ((evs.get ⟨i, hi2⟩).stop) := by
  intro ms
  induction ms with
  | nil =>
    intro evs h
    rw [parseClockPairs] at h
    simp only [Except.ok.injEq] at h
    subst h
    exact ⟨rfl, fun i hi _ => absurd hi (by simp)⟩
  | cons p rest ih =>
    intro evs h
    rw [parseClockPairs] at h
    cases hp : parseClockPair p with
    | error e2 =>
      rw [hp] at h
      have h2 : (Except.error e2 : Except PyParseError (List ClockInterval)) = .ok evs := h
      cases h2
    | ok ev =>
      rw [hp] at h
      cases hq : parseClockPairs rest with
      | error e3 =>
        rw [hq] at h
        have h2 : (Except.error e3 : Except PyParseError (List ClockInterval)) = .ok evs := h
        cases h2
      | ok evs2 =>
        rw [hq] at h
        have h2 : (Except.ok (ev :: evs2) : Except PyParseError (List ClockInterval)) = .ok evs := h
        simp only [Except.ok.injEq] at h2
        subst h2
        obtain ⟨hlen, helem⟩ := ih hq
        refine ⟨by simp [hlen], ?_⟩
        intro i hi hi2
        cases i with
        | zero =>
          obtain ⟨ha, hb⟩ := parseClockPair_ok_strptime hp
          simpa using ⟨ha, hb⟩
        | succ j =>
          have hj : j < rest.length := by simpa using hi
          have hj2 : j < evs2.length := by simpa using hi2
          simpa using helem j hj hj2

theorem parseClockPairs_error_iff :
    ∀ (ms : List (PyStr × PyStr)),
      parseClockPairs ms = .error .BadTimestamp ↔
        ∃ p ∈ ms, strptimeTs p.1 = none ∨ strptimeTs p.2 = none := by
  intro ms
  induction ms with
  | nil =>
    rw [parseClockPairs]
    simp
  | cons p rest ih =>
    rw [parseClockPairs]
    cases hp : parseClockPair p with
    | error e2 =>
      have he2 := parseClockPair_error_eq hp
      subst he2
      constructor
      · intro _
        exact ⟨p, by simp, parseClockPair_error_strptime hp⟩
      · intro _
        rfl
    | ok ev =>
      cases hq : parseClockPairs rest with
      | error e3 =>
        have he3 := parseClockPairs_error_bad hq
        subst he3
        constructor
        · intro _
          obtain ⟨q, hq2, hq3⟩ := ih.mp hq
          exact ⟨q, by simp [hq2], hq3⟩
        · intro _
          rfl
      | ok evs2 =>
        constructor
        · intro h
          have h2 : (Except.ok (ev :: evs2) : Except PyParseError (List ClockInterval)) =
            .error .BadTimestamp := h
          cases h2
        · rintro ⟨q, hmem, hfail⟩
          exfalso
          rcases List.mem_cons.mp hmem with rfl | hmem2
          · obtain ⟨ha, hb⟩ := parseClockPair_ok_strptime hp
            rcases hfail with hf | hf
            · rw [hf] at ha; cases ha
            · rw [hf] at hb; cases hb
          · have hbad : parseClockPairs rest = .error .BadTimestamp :=
              ih.mpr ⟨q, hmem2, hfail⟩
            rw [hbad] at hq
            cases hq

theorem parse_org_log_ok {log : PyStr} {r : ParsedLog} (h : parse_org_log log = .ok r) :
    ∃ g, findTaskName log = some g ∧ r.task_name = pstrip g ∧
      parseClockPairs (clockFindall log) = .ok r.clock_events := by
  rw [parse_org_log] at h
  cases hf : findTaskName log with
  | none => rw [hf] at h; cases h
  | some g =>
    rw [hf] at h
    cases hp : parseClockPairs (clockFindall log) with
    | error e => rw [hp] at h; cases h
    | ok evs =>
      rw [hp] at h
      simp only [Except.ok.injEq] at h
      subst h
      exact ⟨g, rfl, rfl, rfl⟩

theorem parse_org_log_missing_iff (log : PyStr) :
    parse_org_log log = .error .MissingTaskName ↔ findTaskName log = none := by
  rw [parse_org_log]
  cases hf : findTaskName log with
  | none => simp
  | some g =>
    simp only
    cases hp : parseClockPairs (clockFindall log) with
    | ok evs => simp
    | error e =>
      have he := parseClockPairs_error_bad hp
      subst he
      simp

theorem parse_org_log_bad_iff {log : PyStr} {g : PyStr} (hf : findTaskName log = some g) :
    parse_org_log log = .error .BadTimestamp ↔
      ∃ p ∈ clockFindall log, strptimeTs p.1 = none ∨ strptimeTs p.2 = none := by
  rw [parse_org_log, hf]
  rw [← parseClockPairs_error_iff]
  cases hp : parseClockPairs (clockFindall log) with
  | ok evs => simp
  | error e =>
    have he := parseClockPairs_error_bad hp
    subst he
    simp

/-! ### Lemmas about timestamp formatting and re-parsing -/

theorem digitCh_isDigit (n : Nat) : isDigit (digitCh n) = true := by
  rcases n with _|_|_|_|_|_|_|_|_|n <;> rfl

theorem digitVal_digitCh {n : Nat} (h : n ≤ 9) : digitVal (digitCh n) = n := by
  interval_cases n <;> rfl

theorem isPyWs_digitCh (n : Nat) : isPyWs (digitCh n) = false := by
  rcases n with _|_|_|_|_|_|_|_|_|n <;> rfl

theorem pad4ch_append (n : Nat) (r : PyStr) :
    pad4ch n ++ r = digitCh (n / 1000 % 10) :: digitCh (n / 100 % 10) ::
      digitCh (n / 10 % 10) :: digitCh (n % 10) :: r := rfl

theorem pad2ch_append (n : Nat) (r : PyStr) :
    pad2ch n ++ r = digitCh (n / 10) :: digitCh (n % 10) :: r := rfl

theorem parse4Digits_digits {y : Nat} (h : y ≤ 9999) (r : PyStr) :
    parse4Digits (digitCh (y / 1000 % 10) :: digitCh (y / 100 % 10) ::
      digitCh (y / 10 % 10) :: digitCh (y % 10) :: r) = some (y, r) := by
  rw [parse4Digits]
  simp only [digitCh_isDigit, Bool.and_self, if_true]
  rw [digitVal_digitCh (by omega), digitVal_digitCh (by omega),
    digitVal_digitCh (by omega), digitVal_digitCh (by omega)]
  have hy : y / 1000 % 10 * 1000 + y / 100 % 10 * 100 + y / 10 % 10 * 10 + y % 10 = y := by
    omega
  rw [hy]

theorem expectCh_cons (c : Char) (r : PyStr) : expectCh c (c :: r) = some r := by
  rw [expectCh]
  simp

theorem parseMonth_digits {m : Nat} (h1 : 1 ≤ m) (h2 : m ≤ 12) (r : PyStr) :
    parseMonth (digitCh (m / 10) :: digitCh (m % 10) :: r) = some (m, r) := by
  interval_cases m <;> rfl

theorem parseDay_digits {d : Nat} (h1 : 1 ≤ d) (h2 : d ≤ 31) (r : PyStr) :
    parseDay (digitCh (d / 10) :: digitCh (d % 10) :: r) = some (d, r) := by
  interval_cases d <;> rfl

theorem parseHour_digits {h : Nat} (h2 : h ≤ 23) (r : PyStr) :
    parseHour (digitCh (h / 10) :: digitCh (h % 10) :: r) = some (h, r) := by
  interval_cases h <;> rfl

theorem parseMinute_digits_nil {mi : Nat} (h2 : mi ≤ 59) :
    parseMinute (pad2ch mi) = some (mi, []) := by
  interval_cases mi <;> rfl

theorem parseWsRun_single {c : Char} (hc : isPyWs c = false) (r : PyStr) :
    parseWsRun (' ' :: c :: r) = some (c :: r) := by
  rw [parseWsRun]
  have h1 : (' ' :: c :: r).takeWhile isPyWs = [' '] := by
    rw [List.takeWhile_cons, List.takeWhile_cons]
    simp [hc]
    rfl
  simp [h1]

theorem parseWeekday_cons {a b c : Char}
    (h : [toLowerCh a, toLowerCh b, toLowerCh c] ∈ wdNamesLower) (r : PyStr) :
    parseWeekday (a :: b :: c :: r) = some r := by
  rw [parseWeekday]
  simp [h]

theorem toLowerCh_of_ws {c : Char} (h : isPyWs c = true) : toLowerCh c = c := by
  simp only [isPyWs, Bool.or_eq_true, beq_iff_eq] at h
  rcases h with ((((h|h)|h)|h)|h)|h <;> subst h <;> rfl

theorem weekday_head_not_ws {a b c : Char}
    (h : [toLowerCh a, toLowerCh b, toLowerCh c] ∈ wdNamesLower) :
    isPyWs a = false := by
  cases hws : isPyWs a
  · rfl
  · exfalso
    have ha : toLowerCh a = a := toLowerCh_of_ws hws
    simp only [wdNamesLower, List.mem_cons, List.not_mem_nil, or_false] at h
    rcases h with h|h|h|h|h|h|h <;>
      (simp only [List.cons.injEq] at h
       obtain ⟨h9, -⟩ := h
       rw [ha] at h9
       subst h9
       simp [isPyWs] at hws)

theorem weekday_shape {wd : PyStr} (h : wd.map toLowerCh ∈ wdNamesLower) :
    ∃ a b c, wd = [a, b, c] := by
  have hlen : wd.length = 3 := by
    have h2 : (wd.map toLowerCh).length = 3 := by
      simp only [wdNamesLower, List.mem_cons, List.not_mem_nil, or_false] at h
      rcases h with h|h|h|h|h|h|h <;> rw [h] <;> rfl
    simpa using h2
  cases wd with
  | nil => cases hlen
  | cons a t =>
    cases t with
    | nil => cases hlen
    | cons b t2 =>
      cases t2 with
      | nil => cases hlen
      | cons c t3 =>
        cases t3 with
        | nil => exact ⟨a, b, c, rfl⟩
        | cons d t4 => cases hlen

theorem daysInMonth_le (y m : Nat) : daysInMonth y m ≤ 31 := by
  rw [daysInMonth]
  split
  · split <;> omega
  · split <;> omega

theorem strptime_renderTs {dt : PyDateTime} {wd : PyStr}
    (hv : validDT dt) (hw : wd.map toLowerCh ∈ wdNamesLower) :
    strptimeTs (renderTs dt wd) = some dt := by
  obtain ⟨h1, h2, h3, h4, h5, h6, h7, h8⟩ := hv
  obtain ⟨a, b, c, hwd⟩ := weekday_shape hw
  subst hwd
  simp only [List.map_cons, List.map_nil] at hw
  have hws : isPyWs a = false := weekday_head_not_ws hw
  have hd31 : dt.day ≤ 31 := le_trans h6 (daysInMonth_le _ _)
  rw [renderTs, strptimeTs]
  simp only [List.cons_append, List.nil_append, pad4ch_append, pad2ch_append,
    parse4Digits_digits (show dt.year ≤ 9999 by omega), expectCh_cons,
    parseMonth_digits h3 h4, parseDay_digits h5 hd31,
    parseWsRun_single hws, parseWeekday_cons hw,
    parseWsRun_single (isPyWs_digitCh (dt.hour / 10)),
    parseHour_digits h7, parseMinute_digits_nil h8,
    List.isEmpty_nil, if_true]
  rw [if_pos ⟨h1, h6⟩]

/-! ### Lemmas about scanning a text assembled from two newline-separated parts -/

theorem isPrefixOf_append_right {d s u : PyStr} (h : d.isPrefixOf s) :
    d.isPrefixOf (s ++ u) := by
  rw [ List.isPrefixOf_iff_prefix] at h ⊢
  exact h.trans (List.prefix_append s u)

theorem isPrefixOf_take {d x u : PyStr} (h : d.isPrefixOf (x ++ u))
    (hl : d.length ≤ x.length) : d.isPrefixOf x := by
  rw [ List.isPrefixOf_iff_prefix] at h ⊢
  have h2 : d = List.take d.length (x ++ u) := List.prefix_iff_eq_take.mp h
  rw [List.take_append_eq_append_take] at h2
  have h0 : d.length - x.length = 0 := by omega
  rw [h0] at h2
  simp only [List.take_zero, List.append_nil] at h2
  exact List.prefix_iff_eq_take.mpr h2

theorem nil_isPrefixOf (l : PyStr) : ([] : PyStr).isPrefixOf l = true := by
  cases l <;> rfl

theorem isPrefixOf_append_nl {d : PyStr} (hnl : '\n' ∉ d) :
    ∀ {x t : PyStr}, d.isPrefixOf (x ++ '\n' :: t) → d.isPrefixOf x := by
  induction d with
  | nil => intro x t _; exact nil_isPrefixOf x
  | cons d0 d' ih =>
    intro x t h
    have hnl0 : d0 ≠ '\n' := fun hc => hnl (by rw [hc]; exact List.mem_cons_self _ _)
    have hnl' : '\n' ∉ d' := fun hc => hnl (List.mem_cons_of_mem _ hc)
    cases x with
    | nil =>
      simp only [List.nil_append, List.isPrefixOf, Bool.and_eq_true, beq_iff_eq] at h
      exact absurd h.1 hnl0
    | cons x0 x' =>
      simp only [List.cons_append, List.isPrefixOf, Bool.and_eq_true] at h
      simp only [List.isPrefixOf, Bool.and_eq_true]
      exact ⟨h.1, ih hnl' h.2⟩

theorem lazyCapture_some_append {d u : PyStr} :
    ∀ {s cap r : PyStr}, lazyCapture d s = some (cap, r) →
      lazyCapture d (s ++ u) = some (cap, r ++ u) := by
  intro s
  induction s with
  | nil =>
    intro cap r h
    rw [lazyCapture] at h
    split at h
    · rename_i hp
      simp only [Option.some.injEq, Prod.mk.injEq] at h
      obtain ⟨hc, hr⟩ := h
      subst hc
      subst hr
      have hd : d = [] := by
        have h2 := ( List.isPrefixOf_iff_prefix).mp hp
        simpa using h2
      subst hd
      rw [lazyCapture.eq_def]
      simp [nil_isPrefixOf]
    · simp at h
  | cons c rest ih =>
    intro cap r h
    rw [lazyCapture] at h
    split at h
    · rename_i hp
      simp only [Option.some.injEq, Prod.mk.injEq] at h
      obtain ⟨hc, hr⟩ := h
      subst hc
      subst hr
      rw [lazyCapture.eq_def, if_pos (isPrefixOf_append_right hp)]
      have hdl : d.length ≤ (c :: rest).length :=
        (( List.isPrefixOf_iff_prefix).mp hp).length_le
      rw [List.drop_append_eq_append_drop]
      have h0 : d.length - (c :: rest).length = 0 := by omega
      rw [h0, List.drop_zero]
    · rename_i hnp
      by_cases hc : c == '\n'
      · rw [if_pos hc] at h; cases h
      · rw [if_neg hc] at h
        cases hrec : lazyCapture d rest with
        | none => rw [hrec] at h; cases h
        | some p =>
          obtain ⟨cap1, r1⟩ := p
          rw [hrec] at h
          simp only [Option.some.injEq, Prod.mk.injEq] at h
          obtain ⟨hc1, hr1⟩ := h
          subst hc1
          subst hr1
          have hlen : d.length ≤ rest.length := by
            have := lazyCapture_length hrec
            omega
          have hnp2 : ¬ d.isPrefixOf ((c :: rest) ++ u) = true := by
            intro hcontra
            exact hnp (isPrefixOf_take hcontra (by simp; omega))
          rw [lazyCapture.eq_def, if_neg hnp2]
          simp only [List.cons_append]
          rw [if_neg hc, ih hrec]

theorem lazyCapture_none_append {d t : PyStr} (hd : d ≠ []) (hnl : '\n' ∉ d) :
    ∀ {s : PyStr}, lazyCapture d s = none →
      lazyCapture d (s ++ '\n' :: t) = none := by
  intro s
  induction s with
  | nil =>
    intro _
    rw [lazyCapture.eq_def]
    have hnp : ¬ d.isPrefixOf ([] ++ '\n' :: t) = true := by
      intro hc
      have h2 := isPrefixOf_append_nl hnl hc
      cases d with
      | nil => exact hd rfl
      | cons d0 d' => simp [List.isPrefixOf] at h2
    simp only [List.nil_append] at hnp ⊢
    rw [if_neg hnp]
    simp
  | cons c rest ih =>
    intro h
    rw [lazyCapture] at h
    split at h
    · cases h
    · rename_i hnp
      have hnp2 : ¬ d.isPrefixOf ((c :: rest) ++ '\n' :: t) = true := by
        intro hcontra
        exact hnp (isPrefixOf_append_nl hnl hcontra)
      rw [lazyCapture.eq_def, if_neg hnp2]
      simp only [List.cons_append]
      by_cases hc : c == '\n'
      · rw [if_pos hc]
      · rw [if_neg hc] at h
        rw [if_neg hc]
        cases hrec : lazyCapture d rest with
        | some p =>
          obtain ⟨cap1, r1⟩ := p
          rw [hrec] at h
          cases h
        | none =>
          rw [ih hrec]

theorem matchClockAt_some_append {s u : PyStr} {gs : PyStr × PyStr} {r : PyStr}
    (h : matchClockAt s = some (gs, r)) :
    matchClockAt (s ++ u) = some (gs, r ++ u) := by
  rw [matchClockAt] at h
  split at h
  · rename_i hp
    split at h
    · cases h
    · rename_i g1 s2 h1
      split at h
      · cases h
      · rename_i g2 s3 h2
        simp only [Option.some.injEq, Prod.mk.injEq] at h
        obtain ⟨hgs, hr⟩ := h
        subst hgs
        subst hr
        rw [matchClockAt, if_pos (isPrefixOf_append_right hp)]
        have hdl : clockLit.length ≤ s.length :=
          (( List.isPrefixOf_iff_prefix).mp hp).length_le
        rw [List.drop_append_eq_append_drop]
        have h0 : clockLit.length - s.length = 0 := by omega
        rw [h0, List.drop_zero]
        simp only [lazyCapture_some_append h1, lazyCapture_some_append h2]
  · cases h

theorem matchClockAt_none_append {s t : PyStr} (h : matchClockAt s = none) :
    matchClockAt (s ++ '\n' :: t) = none := by
  rw [matchClockAt] at h
  rw [matchClockAt]
  by_cases hp : clockLit.isPrefixOf s = true
  · rw [if_pos hp] at h
    rw [if_pos (isPrefixOf_append_right hp)]
    have hdl : clockLit.length ≤ s.length :=
      (( List.isPrefixOf_iff_prefix).mp hp).length_le
    rw [List.drop_append_eq_append_drop]
    have h0 : clockLit.length - s.length = 0 := by omega
    rw [h0, List.drop_zero]
    cases h1 : lazyCapture dashDelim (s.drop clockLit.length) with
    | none =>
      rw [lazyCapture_none_append (by decide) (by decide) h1]
    | some p =>
      obtain ⟨g1, s2⟩ := p
      simp only [h1] at h
      cases h2 : lazyCapture closeDelim s2 with
      | some q =>
        obtain ⟨g2, s3⟩ := q
        simp only [h2] at h
        cases h
      | none =>
        simp only [lazyCapture_some_append h1]
        rw [lazyCapture_none_append (by decide) (by decide) h2]
  · have hnp2 : ¬ clockLit.isPrefixOf (s ++ '\n' :: t) = true := by
      intro hcontra
      exact hp (isPrefixOf_append_nl (by decide) hcontra)
    rw [if_neg hnp2]

theorem matchClockAt_nil : matchClockAt [] = none := rfl

theorem matchClockAt_nl_cons (b : PyStr) : matchClockAt ('\n' :: b) = none := by
  rw [matchClockAt]
  have : ¬ clockLit.isPrefixOf ('\n' :: b) = true := by
    intro hc
    simp [clockLit, List.isPrefixOf] at hc
  rw [if_neg this]

theorem clockFindall_cons_match {s : PyStr} {gs : PyStr × PyStr} {r : PyStr}
    (h : matchClockAt s = some (gs, r)) :
    clockFindall s = gs :: clockFindall r := by
  cases s with
  | nil => rw [matchClockAt_nil] at h; cases h
  | cons c rest =>
    rw [clockFindall]
    have hl : (c :: rest).length = rest.length + 1 := rfl
    rw [hl, clockFindallAux]
    simp only [List.isEmpty_cons, Bool.false_eq_true, if_false, h, Option.elim]
    have hr := matchClockAt_shrink h
    rw [clockFindallAux_eq (by omega)]

theorem clockFindall_cons_nomatch {c : Char} {rest : PyStr}
    (h : matchClockAt (c :: rest) = none) :
    clockFindall (c :: rest) = clockFindall rest := by
  rw [clockFindall]
  have hl : (c :: rest).length = rest.length + 1 := rfl
  rw [hl, clockFindallAux]
  simp only [List.isEmpty_cons, Bool.false_eq_true, if_false, h, Option.elim, List.tail_cons]
  rw [clockFindallAux_eq (by omega)]

theorem clockFindall_split :
    ∀ (n : Nat) (a b : PyStr), a.length ≤ n →
      clockFindall (a ++ '\n' :: b) = clockFindall a ++ clockFindall b := by
  intro n
  induction n with
  | zero =>
    intro a b h
    have ha : a = [] := List.length_eq_zero.mp (Nat.le_zero.mp h)
    subst ha
    simp only [List.nil_append]
    rw [clockFindall_cons_nomatch (matchClockAt_nl_cons b)]
    rfl
  | succ n ih =>
    intro a b h
    cases a with
    | nil =>
      simp only [List.nil_append]
      rw [clockFindall_cons_nomatch (matchClockAt_nl_cons b)]
      rfl
    | cons c arest =>
      have hl : (c :: arest).length = arest.length + 1 := rfl
      cases hm : matchClockAt (c :: arest) with
      | some p =>
        obtain ⟨gs, r⟩ := p
        have hr := matchClockAt_shrink hm
        rw [clockFindall_cons_match (matchClockAt_some_append hm),
          clockFindall_cons_match hm]
        rw [ih r b (by omega)]
        rfl
      | none =>
        have hstep : (c :: arest) ++ '\n' :: b = c :: (arest ++ '\n' :: b) := rfl
        rw [hstep, clockFindall_cons_nomatch (by rw [← List.cons_append]; exact matchClockAt_none_append hm),
          clockFindall_cons_nomatch hm]
        exact ih arest b (by omega)

/-! ### Auxiliary facts for the claims -/

theorem weekdayByIdx_mem (k : Nat) : (weekdayByIdx k).map toLowerCh ∈ wdNamesLower := by
  rcases k with _|_|_|_|_|_|_|k
  · decide
  · decide
  · decide
  · decide
  · decide
  · decide
  · decide
  · exact (by decide : (['S', 'u', 'n'] : PyStr).map toLowerCh ∈ wdNamesLower)

/-! ### The claims -/

/-- C1: the event-creation guard of create_calendar_event compares the
seconds component of the timedelta (timedelta.seconds), not its total
duration.  A log entry whose clock line spans exactly one day yields a
duration of 86400 seconds, far above ten, yet the seconds component is 0,
so the code prints the too-short skip notice and forwards nothing to the
Event Sink, where the claim requires the event to persist. -/
theorem C1_seconds_component_eval :
    create_events_from_log
        ("* t\nCLOCK: [2024-01-01 Mon 10:00]--[2024-01-02 Tue 10:00]".data) = .ok [] ∧
    dtToUs ⟨2024, 1, 2, 10, 0⟩ - dtToUs ⟨2024, 1, 1, 10, 0⟩ = 86400000000 ∧
    10 * 1000000 ≤ (86400000000 : Int) ∧
    tdSeconds 86400000000 = 0 ∧
    create_calendar_event (dtToUs ⟨2024, 1, 1, 10, 0⟩) (dtToUs ⟨2024, 1, 2, 10, 0⟩)
        (['t']) (some ['7']) = none := by
  exact ⟨by rfl, by decide, by decide, by decide, by rfl⟩

/-- C2 counterexample: the parser creates a TimeInterval whose end equals
its start (duration zero, under ten seconds), so end > start is not an
invariant of produced intervals and short intervals are created rather
than discarded. -/
theorem C2_cex :
    parse_org_log ("* t\nCLOCK: [2024-11-20 Wed 12:47]--[2024-11-20 Wed 12:47]".data)
      = .ok ⟨['t'], [⟨⟨2024, 11, 20, 12, 47⟩, ⟨2024, 11, 20, 12, 47⟩⟩]⟩ ∧
    tdSeconds (dtToUs ⟨2024, 11, 20, 12, 47⟩ - dtToUs ⟨2024, 11, 20, 12, 47⟩) < 10 := by
  exact ⟨by rfl, by decide⟩

/-- C2 amended: the parser does not validate its intervals; the
minimum-duration rule lives in create_calendar_event alone, which persists
an event (with the given bounds) only when the seconds component of
end - start is at least ten. -/
theorem C2_amended (start_time end_time : Int) (summary : PyStr)
    (color : Option PyStr) (ev : CalEvent)
    (h : create_calendar_event start_time end_time summary color = some ev) :
    10 ≤ tdSeconds (end_time - start_time) ∧
    ev.startUs = start_time ∧ ev.endUs = end_time := by
  rw [create_calendar_event] at h
  split at h
  · cases h
  · rename_i hge
    simp only [Option.some.injEq] at h
    subst h
    exact ⟨by omega, rfl, rfl⟩

/-- C2 witness: a twenty-second interval is persisted and satisfies the
amended bound. -/
theorem C2_witness :
    10 ≤ tdSeconds (20000000 - 0) ∧
    (⟨['w'], 0, 20000000, none⟩ : CalEvent).startUs = 0 ∧
    (⟨['w'], 0, 20000000, none⟩ : CalEvent).endUs = 20000000 :=
  C2_amended 0 20000000 ['w'] none ⟨['w'], 0, 20000000, none⟩ (by rfl)

/-- C3 counterexample: on the text star-space the parser succeeds and the
returned task name is the empty string, refuting the claim that a
successful parse always carries a non-empty name. -/
theorem C3_cex :
    parse_org_log ("* ".data) = .ok ⟨[], []⟩ := by rfl

/-- C3 amended: whenever the parser succeeds, the name is the trimmed
capture of the first line-start match of the marker pattern; the name may
be empty, the capture may come from a line after the marker line (the
whitespace of the pattern can cross line breaks), and the name never
contains a newline. -/
theorem C3_amended (log : PyStr) (r : ParsedLog) (h : parse_org_log log = .ok r) :
    ∃ g, findTaskName log = some g ∧ r.task_name = pstrip g ∧ '\n' ∉ r.task_name := by
  obtain ⟨g, hf, hn, -⟩ := parse_org_log_ok h
  refine ⟨g, hf, hn, ?_⟩
  intro hmem
  rw [hn] at hmem
  have hmem2 := mem_pstrip hmem
  obtain ⟨t, hmt⟩ := findTaskNameAux_some log.length log g hf
  exact matchTaskNameAt_no_newline hmt hmem2

/-- C3 witness: the amended statement at the two-character log star-space-a. -/
theorem C3_witness :
    ∃ g, findTaskName ("* a".data) = some g ∧
      (⟨['a'], []⟩ : ParsedLog).task_name = pstrip g ∧
      '\n' ∉ (⟨['a'], []⟩ : ParsedLog).task_name :=
  C3_amended ("* a".data) ⟨['a'], []⟩ (by rfl)

/-- C4: a successful parse returns exactly one interval per clock-pattern
match, in order of appearance in the text, each obtained by strptime from
the matched captures; and when a task line exists but no clock line
matches, the parse succeeds with an empty interval sequence. -/
theorem C4_parser_counts :
    (∀ (log : PyStr) (r : ParsedLog), parse_org_log log = .ok r →
      r.clock_events.length = (clockFindall log).length ∧
      ∀ (i : Nat) (hi : i < (clockFindall log).length) (hi2 : i < r.clock_events.length),
        strptimeTs ((clockFindall log).get ⟨i, hi⟩).1
            = some ((r.clock_events.get ⟨i, hi2⟩).start) ∧
        strptimeTs ((clockFindall log).get ⟨i, hi⟩).2
            = some ((r.clock_events.get ⟨i, hi2⟩).stop)) ∧
    (∀ (log : PyStr) (g : PyStr), findTaskName log = some g → clockFindall log = [] →
      parse_org_log log = .ok ⟨pstrip g, []⟩) := by
  constructor
  · intro log r h
    obtain ⟨g, hf, hn, hp⟩ := parse_org_log_ok h
    obtain ⟨hlen, helem⟩ := parseClockPairs_ok_elem hp
    exact ⟨hlen, fun i hi hi2 => helem i hi hi2⟩
  · intro log g hf hcf
    rw [parse_org_log, hf, hcf]
    rfl

/-- C4 witness: a log whose two clock lines are out of chronological order
yields exactly two intervals, and a log with a task line and no clock line
yields the empty sequence. -/
theorem C4_witness :
    (⟨['t'], [⟨⟨2024, 11, 20, 12, 48⟩, ⟨2024, 11, 20, 12, 49⟩⟩,
        ⟨⟨2024, 11, 20, 12, 47⟩, ⟨2024, 11, 20, 12, 48⟩⟩]⟩ : ParsedLog).clock_events.length =
      (clockFindall ("* t\nCLOCK: [2024-11-20 Wed 12:48]--[2024-11-20 Wed 12:49]\nCLOCK: [2024-11-20 Wed 12:47]--[2024-11-20 Wed 12:48]".data)).length ∧
    parse_org_log ("* a".data) = .ok ⟨pstrip ['a'], []⟩ :=
  ⟨(C4_parser_counts.1 _ _ (by rfl)).1,
   C4_parser_counts.2 ("* a".data) ['a'] (by rfl) (by rfl)⟩

/-- C5 counterexample: in the text star-newline-foo, no single line matches
the per-line reading of the task-name pattern (markers, then whitespace,
within one line), yet the parser does not fail with MissingTaskName: the
multiline regex matches across the line break and the parse succeeds with
the name foo. -/
theorem C5_cex :
    ((linesOf ("*\nfoo".data)).all fun l => !(spec_taskLine l)) = true ∧
    parse_org_log ("*\nfoo".data) = .ok ⟨['f', 'o', 'o'], []⟩ :=
  ⟨by decide, by rfl⟩

/-- C5 amended: the parser fails with MissingTaskName exactly when the
pattern (asterisk run, then a whitespace run that may cross the line break,
then the capture) matches at no line-start position of the text; in
particular the empty string fails this way. -/
theorem C5_amended :
    (∀ log : PyStr, parse_org_log log = .error .MissingTaskName ↔
      ∀ t ∈ lineStartSuffixes log, matchTaskNameAt t = none) ∧
    parse_org_log [] = .error .MissingTaskName := by
  constructor
  · intro log
    rw [parse_org_log_missing_iff, findTaskName_none_iff]
  · rfl

/-- C6 counterexample: the timestamp 2024-1-5 Wed 3:07 does not conform to
the exact YYYY-MM-DD Www HH:MM format (month, day and hour have one
digit), yet strptime accepts it and the parse succeeds instead of failing
with BadTimestamp. -/
theorem C6_cex :
    spec_exactTs ("2024-1-5 Wed 3:07".data) = false ∧
    parse_org_log ("* t\nCLOCK: [2024-1-5 Wed 3:07]--[2024-1-5 Wed 3:08]".data)
      = .ok ⟨['t'], [⟨⟨2024, 1, 5, 3, 7⟩, ⟨2024, 1, 5, 3, 8⟩⟩]⟩ :=
  ⟨by decide, by rfl⟩

/-- C6 amended: with a task line present, the parse fails with BadTimestamp
exactly when some matched timestamp is rejected by the strptime pattern,
which is laxer than the exact format (one-to-two-digit month, day, hour
and minute, case-insensitive weekday, wider whitespace runs, and calendar
validation of the day); and a timestamp formatted from a valid datetime in
the exact zero-padded format never fails. -/
theorem C6_amended :
    (∀ (log g : PyStr), findTaskName log = some g →
      (parse_org_log log = .error .BadTimestamp ↔
        ∃ p ∈ clockFindall log, strptimeTs p.1 = none ∨ strptimeTs p.2 = none)) ∧
    (∀ dt : PyDateTime, validDT dt → strptimeTs (formatTs dt) ≠ none) := by
  constructor
  · intro log g hf
    exact parse_org_log_bad_iff hf
  · intro dt hv
    rw [formatTs, strptime_renderTs hv (weekdayByIdx_mem _)]
    simp

/-- C6 witness: the iff at a log with a missing weekday token (failure
direction), and the never-fails direction at a concrete datetime. -/
theorem C6_witness :
    (parse_org_log ("* t\nCLOCK: [2024-11-20 12:48]--[2024-11-20 Wed 12:49]".data)
        = .error .BadTimestamp ↔
      ∃ p ∈ clockFindall ("* t\nCLOCK: [2024-11-20 12:48]--[2024-11-20 Wed 12:49]".data),
        strptimeTs p.1 = none ∨ strptimeTs p.2 = none) ∧
    strptimeTs (formatTs ⟨2024, 11, 20, 12, 48⟩) ≠ none :=
  ⟨C6_amended.1 _ ['t'] (by rfl), C6_amended.2 ⟨2024, 11, 20, 12, 48⟩ (by decide)⟩

/-- C7 counterexample: an arbitrary token in the weekday position is not
accepted: the timestamp 2024-11-20 Xyz 12:48 is rejected by strptime and
makes the parse fail with BadTimestamp, refuting the free-form-token part
of the claim. -/
theorem C7_cex :
    strptimeTs ("2024-11-20 Xyz 12:48".data) = none ∧
    parse_org_log ("* t\nCLOCK: [2024-11-20 Xyz 12:48]--[2024-11-20 Wed 12:49]".data)
      = .error .BadTimestamp :=
  ⟨by rfl, by rfl⟩

/-- C7 amended: the weekday token must be one of the seven three-letter
weekday abbreviations, case-insensitively; but it is never checked against
the date: every valid weekday token parses with every valid date, so a
weekday name that disagrees with its calendar date still parses. -/
theorem C7_amended (dt : PyDateTime) (wd : PyStr) (hv : validDT dt)
    (hw : wd.map toLowerCh ∈ wdNamesLower) :
    strptimeTs (renderTs dt wd) = some dt :=
  strptime_renderTs hv hw

/-- C7 witness: 2024-11-20 was a Wednesday; the token Mon parses with it
regardless. -/
theorem C7_witness :
    strptimeTs (renderTs ⟨2024, 11, 20, 12, 48⟩ ("Mon".data)) = some ⟨2024, 11, 20, 12, 48⟩ :=
  C7_amended ⟨2024, 11, 20, 12, 48⟩ ("Mon".data) (by decide) (by decide)

/-- C8: formatting a valid datetime in the clock-line timestamp format
(weekday derived from the date as strftime does) and re-parsing it with
the strptime pattern yields the identical timestamp. -/
theorem C8_roundtrip (dt : PyDateTime) (hv : validDT dt) :
    strptimeTs (formatTs dt) = some dt := by
  rw [formatTs]
  exact strptime_renderTs hv (weekdayByIdx_mem _)

/-- C8 witness: the round trip at a leap-day timestamp. -/
theorem C8_witness :
    strptimeTs (formatTs ⟨2024, 2, 29, 23, 59⟩) = some ⟨2024, 2, 29, 23, 59⟩ :=
  C8_roundtrip ⟨2024, 2, 29, 23, 59⟩ (by decide)

/-- C9: the tracker loop started in the initial idle state on the single
input line exit terminates at once with no event forwarded to the Event
Sink, an unchanged state, and a total-time report of 00:00:00, for every
clock and event name. -/
theorem C9_exit_idle (clock : Nat → Int) (event_name : PyStr) :
    trackerRun clock event_name ["exit".data] 0 initTrackerState = ([], initTrackerState) ∧
    formatTotal ((trackerRun clock event_name ["exit".data] 0 initTrackerState).2.total_time)
      = "00:00:00".data :=
  ⟨rfl, (by decide : formatTotal 0 = "00:00:00".data)⟩

/-- C10: when the task-name pattern matches at the very start of the text
(in the part before a newline), a successful parse takes its single name
from that first match and still collects the clock matches of both parts
of the text, including everything after the newline, where further marker
lines may occur. -/
theorem C10_first_name_all_clocks (a b : PyStr) (g : PyStr) (r : ParsedLog)
    (hm : matchTaskNameAt (a ++ '\n' :: b) = some g)
    (h : parse_org_log (a ++ '\n' :: b) = .ok r) :
    r.task_name = pstrip g ∧
    r.clock_events.length = (clockFindall a).length + (clockFindall b).length := by
  obtain ⟨g2, hf, hn, hp⟩ := parse_org_log_ok h
  have hf2 : findTaskName (a ++ '\n' :: b) = some g := findTaskName_of_matchAt hm
  rw [hf2] at hf
  simp only [Option.some.injEq] at hf
  subst hf
  constructor
  · exact hn
  · obtain ⟨hlen, -⟩ := parseClockPairs_ok_elem hp
    rw [hlen, clockFindall_split a.length a b (le_refl _), List.length_append]

/-- C10 witness: a text with a second marker line after the newline; the
name comes from the first marker line and both clock lines are counted. -/
theorem C10_witness :
    (⟨['o', 'n', 'e'], [⟨⟨2024, 11, 20, 10, 0⟩, ⟨2024, 11, 20, 11, 0⟩⟩,
        ⟨⟨2024, 11, 21, 10, 0⟩, ⟨2024, 11, 21, 11, 0⟩⟩]⟩ : ParsedLog).task_name
      = pstrip ['o', 'n', 'e'] ∧
    (⟨['o', 'n', 'e'], [⟨⟨2024, 11, 20, 10, 0⟩, ⟨2024, 11, 20, 11, 0⟩⟩,
        ⟨⟨2024, 11, 21, 10, 0⟩, ⟨2024, 11, 21, 11, 0⟩⟩]⟩ : ParsedLog).clock_events.length
      = (clockFindall ("* one\nCLOCK: [2024-11-20 Wed 10:00]--[2024-11-20 Wed 11:00]".data)).length +
        (clockFindall ("** two\nCLOCK: [2024-11-21 Thu 10:00]--[2024-11-21 Thu 11:00]".data)).length :=
  C10_first_name_all_clocks
    ("* one\nCLOCK: [2024-11-20 Wed 10:00]--[2024-11-20 Wed 11:00]".data)
    ("** two\nCLOCK: [2024-11-21 Thu 10:00]--[2024-11-21 Thu 11:00]".data)
    ['o', 'n', 'e'] _ (by rfl) (by rfl)
